import Mathlib

-- Shallow embedding of the udpproxy scheduler core (src/udp.c).
--
-- The intrusive doubly-linked list `g_ctx.head` of `struct file_infor` nodes is
-- modelled as a Lean `List file_infor` in head-to-tail order: the element right
-- after the sentinel head is the Lean list head, the element right before the
-- sentinel (the tail of the queue) is the Lean list's last element.  The
-- backward traversal `list_for_each_prev_safe` therefore visits the Lean list
-- from its last element towards its first.  Machine integers (`int64_t` and
-- `int`) are modelled as `Int` with explicit two's-complement reduction where
-- the source narrows or can overflow.

-- TIME_SCALE, src/udp.c line 49: microsecond resolution of timestamps.
def TIME_SCALE : Int := 1000000

/-- Reinterpretation of an integer as a two's-complement 64-bit value, used to
model wraparound of the `int64_t` accumulator in `strtoi`. -/
def int64_wrap (n : Int) : Int := (n + 2 ^ 63) % 2 ^ 64 - 2 ^ 63

/-- Reinterpretation of an integer as a two's-complement 32-bit value, used to
model the implicit `int64_t` → `int` narrowing of `strtoi`'s return value. -/
def toSigned32 (n : Int) : Int := (n + 2 ^ 31) % 2 ^ 32 - 2 ^ 31

/-- `struct file_infor` (src/udp.c lines 62-71): one queued segment.  Only the
fields the scheduler logic reads are modelled; `file_fd`, `file_len`,
`seek_flag` and `timeout` are resolved at transmission time and do not
influence queue order, the watermark, or filesystem effects. -/
structure file_infor where
  file_path : String
  timestamp : Int
  dummy_flag : Bool
deriving DecidableEq

/-- Strict ascending order of the queued timestamps, the ordering invariant of
the work queue. -/
def TsOrdered (q : List file_infor) : Prop :=
  List.Pairwise (fun a b => a.timestamp < b.timestamp) q

/-- `add_file_tail` (src/udp.c lines 213-217): `list_add_tail` appends at the
tail of the queue. -/
def add_file_tail (p : file_infor) (q : List file_infor) : List file_infor :=
  q ++ [p]

/-- The backward scan of `add_file_after` (src/udp.c lines 223-239),
`list_for_each_prev_safe` from the tail towards the head.  `some q'` means the
loop returned (duplicate found, or the segment was linked in after the first
entry with a strictly smaller timestamp, `list_add`); `none` means the loop ran
off the head end without returning. -/
def add_scan (p : file_infor) : List file_infor → Option (List file_infor)
  | [] => none
  | x :: xs =>
    match add_scan p xs with
    | some xs' => some (x :: xs')
    | none =>
      if x.timestamp = p.timestamp then some (x :: xs)
      else if x.timestamp < p.timestamp then some (x :: p :: xs)
      else none

/-- `add_file_after` (src/udp.c lines 219-247).  After the loop, `file_item`
is NULL exactly when the loop body never ran, i.e. when the queue was empty;
only then is the segment appended via `add_file_tail`.  A non-empty queue whose
entries all carry strictly larger timestamps leaves the function without
inserting. -/
def add_file_after (p : file_infor) (q : List file_infor) : List file_infor :=
  match add_scan p q with
  | some q' => q'
  | none =>
    match q with
    | [] => add_file_tail p []
    | _ :: _ => q

/-- `get_list_tail` (src/udp.c lines 251-260): first entry of the backward
traversal, i.e. the last element of the queue. -/
def get_list_tail (q : List file_infor) : Option file_infor :=
  q.getLast?

/-- The head removal performed by each iteration of `on_request`
(src/udp.c lines 579-594): `list_for_each_safe` takes the first entry, sends
it, unlinks it via `remove_list_file`, and breaks. -/
def on_request_take (q : List file_infor) : Option (file_infor × List file_infor) :=
  match q with
  | [] => none
  | f :: rest => some (f, rest)

/-- The queue produced by a sequence of `add_file_after` inserts starting from
the empty list initialised by `udp_init`. -/
def buildQueue (segs : List file_infor) : List file_infor :=
  List.foldl (fun q s => add_file_after s q) [] segs

/-- The digit-accumulation loop of `strtoi` (src/udp.c lines 278-282) on the
`int64_t` accumulator `num`; signed overflow is modelled as two's-complement
wraparound. -/
def strtoi_acc : List Char → Int → Int
  | [], num => num
  | c :: s, num =>
    if c < '0' ∨ c > '9' then num
    else strtoi_acc s (int64_wrap (num * 10 + ((c.toNat : Int) - 48)))

/-- `strtoi` (src/udp.c lines 273-284): parses the leading decimal-digit run
into `int64_t num` but is declared `int`, so the returned value is `num`
narrowed to a signed 32-bit integer. -/
def strtoi (s : List Char) : Int :=
  toSigned32 (strtoi_acc s 0)

/-- The exact mathematical value of the leading decimal-digit run, with no
wraparound: the same loop as `strtoi` over unbounded integers. -/
def prefixValAux : List Char → Int → Int
  | [], num => num
  | c :: s, num =>
    if c < '0' ∨ c > '9' then num
    else prefixValAux s (num * 10 + ((c.toNat : Int) - 48))

/-- Mathematical value of a filename's leading decimal-digit run. -/
def prefixVal (s : List Char) : Int :=
  prefixValAux s 0

/-- `strrchr(filename, '.')` as used in `add_by_file_name` (src/udp.c line
294): the suffix of the string starting at the last occurrence of a dot, or
`none` when the string has no dot. -/
def strrchr_dot : List Char → Option (List Char)
  | [] => none
  | x :: xs =>
    match strrchr_dot xs with
    | some r => some r
    | none => if x = '.' then some (x :: xs) else none

/-- `add_by_file_name` (src/udp.c lines 286-320) reduced to its catalog
decision: `none` when the filename is rejected (zero-valued 32-bit numeric
prefix, or in-progress `.tmp` suffix), otherwise the `file_infor` built for it
(path `work_dir/filename`, timestamp `strtoi(filename) * TIME_SCALE`, dummy
flag set for the `.dummy` suffix).  The queue interaction (capacity wait and
the `add_file_after` call) is modelled separately by `add_file_after`. -/
def add_by_file_name (work_dir filename : String) : Option file_infor :=
  if strtoi filename.data = 0 then none
  else if strrchr_dot filename.data = some (".tmp").data then none
  else
    some
      { file_path := work_dir ++ "/" ++ filename
        timestamp := strtoi filename.data * TIME_SCALE
        dummy_flag := strrchr_dot filename.data == some (".dummy").data }

/-- A directory entry as seen by `custom_filter`: its name and whether
`d_type` is `DT_DIR`. -/
structure dirent where
  d_name : String
  d_isDir : Bool
deriving DecidableEq

/-- `custom_filter` (src/udp.c lines 263-271): keeps non-directory entries
other than `.` and `..`. -/
def custom_filter (e : dirent) : Bool :=
  !e.d_isDir && e.d_name != "." && e.d_name != ".."

/-- The discovery path of `scan_dir` (src/udp.c lines 321-347): `scandir` with
`custom_filter`, then each surviving name through `add_by_file_name`; the
result is the list of accepted segments.  (`alphasort` only permutes the
listing order and does not change which names are accepted.) -/
def scan_dir_accepted (work_dir : String) (entries : List dirent) : List file_infor :=
  (entries.filter custom_filter).filterMap (fun e => add_by_file_name work_dir e.d_name)

/-- `copy_dummy_file` (src/udp.c lines 480-547) reduced to the name it gives
the synthesized filler file in the work directory (src/udp.c lines 500-505):
`(tail->timestamp + TIME_SCALE) / TIME_SCALE` with C truncating division when
the queue has a tail, and the fixed name `1.dummy` when `get_list_tail`
returns NULL.  Rediscovery of this basename through the inotify path then
yields the filler's `file_infor` via `add_by_file_name`. -/
def copy_dummy_file (q : List file_infor) : String :=
  match get_list_tail q with
  | some fi => toString (Int.tdiv (fi.timestamp + TIME_SCALE) TIME_SCALE) ++ ".dummy"
  | none => "1.dummy"

/-- `wait_time` (src/udp.c lines 401-415) as a pure function of the mutable
state it touches: given `g_ctx.stream_start_timestamp`,
`g_ctx.start_wait_interval`, the segment's timestamp and the current time, it
returns the new `stream_start_timestamp` and the number of microseconds passed
to `usleep` (0 when no sleep happens).  Note the source sleeps the whole
`start_wait_interval`, and only ever on the first call (stream start still
`-1`). -/
def wait_time (stream_start start_wait_interval file_timestamp now : Int) : Int × Int :=
  if stream_start = -1 then
    (file_timestamp, if file_timestamp + start_wait_interval > now then start_wait_interval else 0)
  else
    (stream_start, 0)

/-- The sleeps performed by a run of `send_file` calls (each calls `wait_time`
with its segment's timestamp and the then-current time), threading
`stream_start_timestamp` which starts at `-1` from `udp_init`. -/
def send_run_sleeps (stream_start start_wait_interval : Int) :
    List (file_infor × Int) → List Int
  | [] => []
  | (f, now) :: rest =>
    let r := wait_time stream_start start_wait_interval f.timestamp now
    r.2 :: send_run_sleeps r.1 start_wait_interval rest

/-- An event of the scheduler's shared state: a producer insert
(`add_by_file_name` → `add_file_after`) or one iteration of the consumer loop
`on_request` sending the queue head. -/
inductive UEvent where
  | insert (f : file_infor)
  | send
deriving DecidableEq

/-- The shared state touched by `on_request` (src/udp.c lines 577-596): the
queue, the `sent_timestamp` watermark, and the work directory's disk contents
as an association of paths to file contents. -/
structure MState where
  queue : List file_infor
  sent_timestamp : Int
  disk : List (String × String)
deriving DecidableEq

/-- One step of the shared state.  `insert f` is `add_file_after`; `send` is
one iteration of `on_request`'s `list_for_each_safe` body (src/udp.c lines
579-594): transmit the head (`send_file` opens it read-only and writes
nothing), then either advance the watermark (`dummy_flag == 0`) or `remove`
the backing file (`dummy_flag != 0`), and unlink the node. -/
def step (st : MState) : UEvent → MState
  | UEvent.insert f => { st with queue := add_file_after f st.queue }
  | UEvent.send =>
    match st.queue with
    | [] => st
    | f :: rest =>
      { queue := rest
        sent_timestamp := if f.dummy_flag then st.sent_timestamp else f.timestamp
        disk := if f.dummy_flag then st.disk.filter (fun e => e.1 != f.file_path) else st.disk }

/-- A run of the scheduler: the fold of `step` over an event trace. -/
def run (st : MState) (es : List UEvent) : MState :=
  List.foldl step st es

/-- Trace condition: every inserted segment's timestamp is at least the
watermark at its insertion time. -/
def okTrace (st : MState) : List UEvent → Bool
  | [] => true
  | e :: es =>
    (match e with
     | UEvent.insert f => decide (st.sent_timestamp ≤ f.timestamp)
     | UEvent.send => true) && okTrace (step st e) es

/-- State invariant of the scheduler: the queue is strictly ordered and every
queued timestamp is at least the watermark. -/
def SchedInv (st : MState) : Prop :=
  TsOrdered st.queue ∧ ∀ x ∈ st.queue, st.sent_timestamp ≤ x.timestamp

/-- The configuration state of `struct Context` relevant to startup parsing
(src/udp.c lines 73-95).  `log_dir` is omitted: its config branch only touches
`log_dir` itself and no claim involves it. -/
structure Ctx where
  ip_addr : Option String
  port : Int
  work_dir : Option String
  start_wait_interval : Int
  dummy_file_path : Option String
  send_dummy_interval : Int
deriving DecidableEq

/-- `udp_init` defaults (src/udp.c lines 140-158). -/
def udp_init_ctx : Ctx :=
  { ip_addr := none
    port := -1
    work_dir := none
    start_wait_interval := 0
    dummy_file_path := none
    send_dummy_interval := 1800 }

/-- The command-line options recognised by `getopt_long` (src/udp.c lines
99-106): each field holds the option's argument when the flag was supplied. -/
structure Cli where
  ip : Option String
  port : Option String
  t : Option String
  w : Option String

/-- The `getopt_long` loop of `main` (src/udp.c lines 621-644). -/
def apply_cli (c : Cli) (ctx : Ctx) : Ctx :=
  let ctx :=
    match c.ip with
    | some v => { ctx with ip_addr := some v }
    | none => ctx
  let ctx :=
    match c.port with
    | some v => { ctx with port := strtoi v.data }
    | none => ctx
  let ctx :=
    match c.t with
    | some v => { ctx with start_wait_interval := strtoi v.data * TIME_SCALE }
    | none => ctx
  match c.w with
  | some v => { ctx with work_dir := some v }
  | none => ctx

/-- One scalar keyword/value pair of the config-file loop (src/udp.c lines
683-705): the else-if chain guarded by which settings the command line left
untouched.  Note the `start_wait_interval` branch is guarded by
`g_ctx.start_wait_interval != 0`. -/
def apply_config_kv (ctx : Ctx) (kv : String × String) : Ctx :=
  if kv.1 = "ip" ∧ ctx.ip_addr = none then { ctx with ip_addr := some kv.2 }
  else if kv.1 = "port" ∧ ctx.port = -1 then { ctx with port := strtoi kv.2.data }
  else if kv.1 = "work_dir" ∧ ctx.work_dir = none then { ctx with work_dir := some kv.2 }
  else if kv.1 = "dummy_file" ∧ ctx.dummy_file_path = none then
    { ctx with dummy_file_path := some kv.2 }
  else if kv.1 = "send_dummy_interval" then { ctx with send_dummy_interval := strtoi kv.2.data }
  else if kv.1 = "start_wait_interval" ∧ ctx.start_wait_interval ≠ 0 then
    { ctx with start_wait_interval := strtoi kv.2.data }
  else ctx

/-- Startup configuration: `udp_init`, then the command line, then the config
file's scalar keyword/value pairs in order. -/
def startup (c : Cli) (cfg : List (String × String)) : Ctx :=
  List.foldl apply_config_kv (apply_cli c udp_init_ctx) cfg

-- ------------------------------------------------------------------
-- Helper lemmas about the backward insertion scan
-- ------------------------------------------------------------------

lemma add_scan_eq_none_of (p : file_infor) :
    ∀ q : List file_infor, (∀ x ∈ q, p.timestamp < x.timestamp) → add_scan p q = none := by
  intro q
  induction q with
  | nil => intro _; rfl
  | cons y ys ih =>
    intro h
    have hys : add_scan p ys = none := ih (fun x hx => h x (List.mem_cons_of_mem y hx))
    have hy : p.timestamp < y.timestamp := h y (List.mem_cons_self y ys)
    simp only [add_scan, hys]
    rw [if_neg, if_neg]
    · omega
    · omega

lemma lt_of_add_scan_eq_none (p : file_infor) :
    ∀ q : List file_infor, add_scan p q = none → ∀ x ∈ q, p.timestamp < x.timestamp := by
  intro q
  induction q with
  | nil => intro _ x hx; cases hx
  | cons y ys ih =>
    intro h x hx
    simp only [add_scan] at h
    cases hys : add_scan p ys with
    | some ys' => rw [hys] at h; cases h
    | none =>
      rw [hys] at h
      by_cases h1 : y.timestamp = p.timestamp
      · rw [if_pos h1] at h; cases h
      · rw [if_neg h1] at h
        by_cases h2 : y.timestamp < p.timestamp
        · rw [if_pos h2] at h; cases h
        · rcases List.mem_cons.mp hx with rfl | hx'
          · omega
          · exact ih hys x hx'

lemma add_scan_mem (p : file_infor) :
    ∀ q q' : List file_infor, add_scan p q = some q' → ∀ z ∈ q', z ∈ q ∨ z = p := by
  intro q
  induction q with
  | nil => intro q' h; cases h
  | cons y ys ih =>
    intro q' h z hz
    simp only [add_scan] at h
    cases hys : add_scan p ys with
    | some ys' =>
      rw [hys] at h
      cases h
      rcases List.mem_cons.mp hz with rfl | hz'
      · exact Or.inl (List.mem_cons_self _ _)
      · rcases ih ys' hys z hz' with hm | hp
        · exact Or.inl (List.mem_cons_of_mem _ hm)
        · exact Or.inr hp
    | none =>
      rw [hys] at h
      by_cases h1 : y.timestamp = p.timestamp
      · rw [if_pos h1] at h
        cases h
        exact Or.inl hz
      · rw [if_neg h1] at h
        by_cases h2 : y.timestamp < p.timestamp
        · rw [if_pos h2] at h
          cases h
          rcases List.mem_cons.mp hz with rfl | hz' 
          · exact Or.inl (List.mem_cons_self _ _)
          · rcases List.mem_cons.mp hz' with rfl | hz''
            · exact Or.inr rfl
            · exact Or.inl (List.mem_cons_of_mem _ hz'')
        · rw [if_neg h2] at h; cases h

lemma add_scan_exists_le (p : file_infor) :
    ∀ q q' : List file_infor, add_scan p q = some q' →
      ∃ y ∈ q, y.timestamp ≤ p.timestamp := by
  intro q
  induction q with
  | nil => intro q' h; cases h
  | cons y ys ih =>
    intro q' h
    simp only [add_scan] at h
    cases hys : add_scan p ys with
    | some ys' =>
      rcases ih ys' hys with ⟨w, hw, hwle⟩
      exact ⟨w, List.mem_cons_of_mem y hw, hwle⟩
    | none =>
      rw [hys] at h
      by_cases h1 : y.timestamp = p.timestamp
      · exact ⟨y, List.mem_cons_self y ys, le_of_eq h1⟩
      · rw [if_neg h1] at h
        by_cases h2 : y.timestamp < p.timestamp
        · exact ⟨y, List.mem_cons_self y ys, le_of_lt h2⟩
        · rw [if_neg h2] at h; cases h

lemma add_scan_sorted (p : file_infor) :
    ∀ q q' : List file_infor, TsOrdered q → add_scan p q = some q' → TsOrdered q' := by
  intro q
  induction q with
  | nil => intro q' _ h; cases h
  | cons y ys ih =>
    intro q' hs h
    rcases List.pairwise_cons.mp hs with ⟨hy, hys_sorted⟩
    simp only [add_scan] at h
    cases hys : add_scan p ys with
    | some ys' =>
      rw [hys] at h
      cases h
      refine List.pairwise_cons.mpr ⟨?_, ih ys' hys_sorted hys⟩
      intro z hz
      rcases add_scan_mem p ys ys' hys z hz with hm | hp
      · exact hy z hm
      · rcases add_scan_exists_le p ys ys' hys with ⟨w, hw, hwle⟩
        rw [hp]
        exact lt_of_lt_of_le (hy w hw) hwle
    | none =>
      rw [hys] at h
      by_cases h1 : y.timestamp = p.timestamp
      · rw [if_pos h1] at h
        cases h
        exact hs
      · rw [if_neg h1] at h
        by_cases h2 : y.timestamp < p.timestamp
        · rw [if_pos h2] at h
          cases h
          refine List.pairwise_cons.mpr ⟨?_, List.pairwise_cons.mpr ⟨?_, hys_sorted⟩⟩
          · intro z hz
            rcases List.mem_cons.mp hz with rfl | hz'
            · exact h2
            · exact hy z hz'
          · exact lt_of_add_scan_eq_none p ys hys
        · rw [if_neg h2] at h; cases h

lemma add_scan_dup (p : file_infor) :
    ∀ q : List file_infor, TsOrdered q → (∃ x ∈ q, x.timestamp = p.timestamp) →
      add_scan p q = some q := by
  intro q
  induction q with
  | nil => rintro _ ⟨x, hx, _⟩; cases hx
  | cons y ys ih =>
    rintro hs ⟨x, hx, hxts⟩
    rcases List.pairwise_cons.mp hs with ⟨hy, hys_sorted⟩
    rcases List.mem_cons.mp hx with rfl | hx'
    · have hnone : add_scan p ys = none := by
        apply add_scan_eq_none_of
        intro z hz
        have := hy z hz
        omega
      simp only [add_scan, hnone]
      rw [if_pos hxts]
    · have hsome : add_scan p ys = some ys := ih hys_sorted ⟨x, hx', hxts⟩
      simp only [add_scan, hsome]

lemma add_scan_insert (p : file_infor) :
    ∀ q : List file_infor, TsOrdered q → (∀ x ∈ q, x.timestamp ≠ p.timestamp) →
      (∃ x ∈ q, x.timestamp < p.timestamp) →
      ∃ l₁ x l₂, q = l₁ ++ x :: l₂ ∧ x.timestamp < p.timestamp ∧
        (∀ y ∈ l₂, p.timestamp < y.timestamp) ∧
        add_scan p q = some (l₁ ++ x :: p :: l₂) := by
  intro q
  induction q with
  | nil => rintro _ _ ⟨x, hx, _⟩; cases hx
  | cons y ys ih =>
    rintro hs hne ⟨x, hx, hxlt⟩
    rcases List.pairwise_cons.mp hs with ⟨hy, hys_sorted⟩
    by_cases hex : ∃ z ∈ ys, z.timestamp < p.timestamp
    · rcases ih hys_sorted (fun z hz => hne z (List.mem_cons_of_mem y hz)) hex with
        ⟨l₁, w, l₂, hq, hwlt, hgt, hscan⟩
      refine ⟨y :: l₁, w, l₂, by rw [hq]; rfl, hwlt, hgt, ?_⟩
      simp only [add_scan, hscan]
      rfl
    · have hnone : add_scan p ys = none := by
        apply add_scan_eq_none_of
        intro z hz
        have h1 := hne z (List.mem_cons_of_mem y hz)
        have h2 : ¬ z.timestamp < p.timestamp := fun hlt => hex ⟨z, hz, hlt⟩
        omega
      have hylt : y.timestamp < p.timestamp := by
        rcases List.mem_cons.mp hx with rfl | hx'
        · exact hxlt
        · exact absurd ⟨x, hx', hxlt⟩ hex
      refine ⟨[], y, ys, rfl, hylt, lt_of_add_scan_eq_none p ys hnone, ?_⟩
      simp only [add_scan, hnone]
      rw [if_neg (by omega), if_pos hylt]
      rfl

-- ------------------------------------------------------------------
-- Helper lemmas about add_file_after and buildQueue
-- ------------------------------------------------------------------

lemma add_file_after_sorted (p : file_infor) (q : List file_infor) (hs : TsOrdered q) :
    TsOrdered (add_file_after p q) := by
  unfold add_file_after
  cases h : add_scan p q with
  | some q' => exact add_scan_sorted p q q' hs h
  | none =>
    cases q with
    | nil => exact List.pairwise_cons.mpr ⟨(by intro z hz; cases hz), List.Pairwise.nil⟩
    | cons y ys => exact hs

lemma add_file_after_mem (p : file_infor) (q : List file_infor) :
    ∀ z ∈ add_file_after p q, z ∈ q ∨ z = p := by
  intro z hz
  unfold add_file_after at hz
  cases h : add_scan p q with
  | some q' =>
    rw [h] at hz
    exact add_scan_mem p q q' h z hz
  | none =>
    rw [h] at hz
    cases q with
    | nil =>
      rcases List.mem_singleton.mp hz with rfl
      exact Or.inr rfl
    | cons y ys => exact Or.inl hz

lemma foldl_add_sorted (segs : List file_infor) :
    ∀ q : List file_infor, TsOrdered q →
      TsOrdered (List.foldl (fun acc s => add_file_after s acc) q segs) := by
  induction segs with
  | nil => intro q hq; exact hq
  | cons s ss ih =>
    intro q hq
    exact ih (add_file_after s q) (add_file_after_sorted s q hq)

lemma buildQueue_sorted (segs : List file_infor) : TsOrdered (buildQueue segs) :=
  foldl_add_sorted segs [] List.Pairwise.nil

-- ------------------------------------------------------------------
-- Helper lemmas about strtoi
-- ------------------------------------------------------------------

lemma int64_wrap_emod (n : Int) : int64_wrap n % 2 ^ 64 = n % 2 ^ 64 := by
  unfold int64_wrap
  omega

lemma toSigned32_congr (a b : Int) (h : a % 2 ^ 32 = b % 2 ^ 32) :
    toSigned32 a = toSigned32 b := by
  unfold toSigned32
  omega

lemma strtoi_acc_emod (s : List Char) :
    ∀ a b : Int, a % 2 ^ 64 = b % 2 ^ 64 →
      strtoi_acc s a % 2 ^ 64 = prefixValAux s b % 2 ^ 64 := by
  induction s with
  | nil => intro a b h; exact h
  | cons c cs ih =>
    intro a b h
    simp only [strtoi_acc, prefixValAux]
    by_cases hd : c < '0' ∨ c > '9'
    · rw [if_pos hd, if_pos hd]
      exact h
    · rw [if_neg hd, if_neg hd]
      apply ih
      rw [int64_wrap_emod]
      omega

lemma strtoi_eq_toSigned32 (s : List Char) :
    strtoi s = toSigned32 (prefixVal s % 2 ^ 32) := by
  unfold strtoi prefixVal
  apply toSigned32_congr
  have h64 : strtoi_acc s 0 % 2 ^ 64 = prefixValAux s 0 % 2 ^ 64 :=
    strtoi_acc_emod s 0 0 rfl
  omega

lemma strtoi_eq_zero_of_prefixVal_zero (s : List Char) (h : prefixVal s % 2 ^ 32 = 0) :
    strtoi s = 0 := by
  rw [strtoi_eq_toSigned32, h]
  decide

lemma prefixVal_ne_zero_of_strtoi_ne_zero (s : List Char) (h : strtoi s ≠ 0) :
    prefixVal s ≠ 0 := by
  intro h0
  apply h
  apply strtoi_eq_zero_of_prefixVal_zero
  rw [h0]
  decide

-- ------------------------------------------------------------------
-- Helper lemmas about the scheduler state machine
-- ------------------------------------------------------------------

lemma step_insert_watermark (st : MState) (f : file_infor) :
    (step st (UEvent.insert f)).sent_timestamp = st.sent_timestamp := rfl

lemma step_insert_inv (st : MState) (f : file_infor) (h : SchedInv st)
    (hle : st.sent_timestamp ≤ f.timestamp) : SchedInv (step st (UEvent.insert f)) := by
  refine ⟨add_file_after_sorted f st.queue h.1, ?_⟩
  intro x hx
  rcases add_file_after_mem f st.queue x hx with hm | rfl
  · exact h.2 x hm
  · exact hle

lemma step_send_inv (st : MState) (h : SchedInv st) :
    SchedInv (step st UEvent.send) ∧ st.sent_timestamp ≤ (step st UEvent.send).sent_timestamp := by
  rcases h with ⟨hsort, hle⟩
  unfold step
  cases hq : st.queue with
  | nil => exact ⟨⟨by rw [hq]; exact List.Pairwise.nil, by rw [hq]; intro x hx; cases hx⟩, le_refl _⟩
  | cons f rest =>
    rw [hq] at hsort
    rcases List.pairwise_cons.mp hsort with ⟨hf, hrest⟩
    constructor
    · refine ⟨hrest, ?_⟩
      intro x hx
      by_cases hd : f.dummy_flag
      · simp only [hd, if_true]
        exact hle x (by rw [hq]; exact List.mem_cons_of_mem f hx)
      · simp only [hd, if_false]
        exact le_of_lt (hf x hx)
    · by_cases hd : f.dummy_flag
      · simp only [hd, if_true]
        exact le_refl _
      · simp only [hd, if_false]
        exact hle f (by rw [hq]; exact List.mem_cons_self f rest)

lemma run_mono (es : List UEvent) :
    ∀ st : MState, SchedInv st → okTrace st es = true →
      st.sent_timestamp ≤ (run st es).sent_timestamp := by
  induction es with
  | nil => intro st _ _; exact le_refl _
  | cons e es ih =>
    intro st hinv hok
    simp only [okTrace, Bool.and_eq_true] at hok
    have hrun : run st (e :: es) = run (step st e) es := rfl
    rw [hrun]
    cases e with
    | insert f =>
      have hle : st.sent_timestamp ≤ f.timestamp := of_decide_eq_true hok.1
      have h1 := ih (step st (UEvent.insert f)) (step_insert_inv st f hinv hle) hok.2
      rw [step_insert_watermark] at h1
      exact h1
    | send =>
      rcases step_send_inv st hinv with ⟨hinv', hle'⟩
      exact le_trans hle' (ih (step st UEvent.send) hinv' hok.2)

-- ------------------------------------------------------------------
-- Claim theorems
-- ------------------------------------------------------------------

/-- C1: for every sequence of inserts with pairwise-distinct capture
timestamps, performed in arbitrary order, the states reachable by successive
head removals of `on_request` are the suffixes of the built queue; at each
such state the removal returns the segment with the smallest timestamp in the
queue, and consecutive removals return strictly ascending timestamps. -/
theorem c1_ordered_removal (segs : List file_infor)
    (hdist : List.Pairwise (fun a b => a.timestamp ≠ b.timestamp) segs) :
    ∀ q' : List file_infor, List.IsSuffix q' (buildQueue segs) →
      ∀ s rest, on_request_take q' = some (s, rest) →
        (∀ t ∈ q', s.timestamp ≤ t.timestamp) ∧
        (∀ s2 rest2, on_request_take rest = some (s2, rest2) →
          s.timestamp < s2.timestamp) := by
  intro q' hsuf s rest htake
  have hsorted : TsOrdered (buildQueue segs) := buildQueue_sorted segs
  have hq' : TsOrdered q' := hsorted.sublist hsuf.sublist
  cases q' with
  | nil => cases htake
  | cons f fs =>
    simp only [on_request_take] at htake
    injection htake with hpair
    injection hpair with h1 h2
    subst h1
    subst h2
    rcases List.pairwise_cons.mp hq' with ⟨hhead, hrest⟩
    constructor
    · intro t ht
      rcases List.mem_cons.mp ht with rfl | ht'
      · exact le_refl _
      · exact le_of_lt (hhead t ht')
    · intro s2 rest2 htake2
      cases hfs : fs with
      | nil => rw [hfs] at htake2; cases htake2
      | cons g gs =>
        rw [hfs] at htake2
        simp only [on_request_take] at htake2
        injection htake2 with hpair2
        injection hpair2 with h3 h4
        rw [← h3]
        exact hhead g (by rw [hfs]; exact List.mem_cons_self g gs)

/-- C1 witness: the theorem applied to the concrete insert sequence
`[1 s, 2 s]`. -/
theorem c1_witness :
    (⟨("w/1"), 1000000, false⟩ : file_infor).timestamp ≤
      (⟨("w/2"), 2000000, false⟩ : file_infor).timestamp ∧
    (⟨("w/1"), 1000000, false⟩ : file_infor).timestamp <
      (⟨("w/2"), 2000000, false⟩ : file_infor).timestamp := by
  have h := c1_ordered_removal
    [⟨("w/1"), 1000000, false⟩, ⟨("w/2"), 2000000, false⟩]
    (by decide)
    (buildQueue [⟨("w/1"), 1000000, false⟩, ⟨("w/2"), 2000000, false⟩])
    (List.suffix_refl _)
    ⟨("w/1"), 1000000, false⟩
    [⟨("w/2"), 2000000, false⟩]
    (by decide)
  exact ⟨h.1 ⟨("w/2"), 2000000, false⟩ (by decide),
         h.2 ⟨("w/2"), 2000000, false⟩ [] (by decide)⟩

/-- C2 counterexample: inserting a segment with timestamp 5 s into the
non-empty queue `[10 s]`, where no entry has a strictly smaller timestamp,
does not make it the new tail — the insert is silently dropped and the
segment is absent from the queue. -/
theorem c2_cex :
    add_file_after (⟨("w/5"), 5000000, false⟩ : file_infor)
        [⟨("w/10"), 10000000, false⟩] = [⟨("w/10"), 10000000, false⟩] ∧
    (⟨("w/5"), 5000000, false⟩ : file_infor) ∉
      add_file_after (⟨("w/5"), 5000000, false⟩ : file_infor)
        [⟨("w/10"), 10000000, false⟩] := by
  decide

/-- C2 amended: on inserting a segment whose timestamp is not already queued
into an ordered queue, (i) an empty queue receives it as its sole (tail)
element; (ii) if some entry has a strictly smaller timestamp, the segment is
placed immediately after the first such entry found scanning from the tail —
in particular it is present afterwards; (iii) but if the queue is non-empty
and every entry has a strictly greater timestamp, the insert is silently
dropped and the queue is unchanged. -/
theorem c2_insert_position (q : List file_infor) (p : file_infor)
    (hs : TsOrdered q) (hnew : ∀ x ∈ q, x.timestamp ≠ p.timestamp) :
    (q = [] → add_file_after p q = [p]) ∧
    ((∃ x ∈ q, x.timestamp < p.timestamp) →
      ∃ l₁ x l₂, q = l₁ ++ x :: l₂ ∧ x.timestamp < p.timestamp ∧
        (∀ y ∈ l₂, p.timestamp < y.timestamp) ∧
        add_file_after p q = l₁ ++ x :: p :: l₂ ∧ p ∈ add_file_after p q) ∧
    (q ≠ [] → (∀ x ∈ q, p.timestamp < x.timestamp) →
      add_file_after p q = q ∧ p ∉ add_file_after p q) := by
  refine ⟨?_, ?_, ?_⟩
  · rintro rfl
    rfl
  · intro hex
    rcases add_scan_insert p q hs hnew hex with ⟨l₁, x, l₂, hq, hxlt, hgt, hscan⟩
    refine ⟨l₁, x, l₂, hq, hxlt, hgt, ?_, ?_⟩
    · unfold add_file_after
      rw [hscan]
    · unfold add_file_after
      rw [hscan]
      exact List.mem_append_right l₁ (List.mem_cons_of_mem x (List.mem_cons_self p l₂))
  · intro hne hall
    have hnone : add_scan p q = none := add_scan_eq_none_of p q hall
    have heq : add_file_after p q = q := by
      unfold add_file_after
      rw [hnone]
      cases q with
      | nil => exact absurd rfl hne
      | cons y ys => rfl
    refine ⟨heq, ?_⟩
    rw [heq]
    intro hmem
    exact lt_irrefl p.timestamp (hall p hmem)

/-- C2 witness: the amended theorem applied to the queue `[1 s]` and the new
segment `2 s`, whose timestamp is strictly larger, showing the segment is
present after the insert. -/
theorem c2_witness :
    (⟨("w/2"), 2000000, false⟩ : file_infor) ∈
      add_file_after (⟨("w/2"), 2000000, false⟩ : file_infor)
        [⟨("w/1"), 1000000, false⟩] := by
  have h := (c2_insert_position [⟨("w/1"), 1000000, false⟩]
    (⟨("w/2"), 2000000, false⟩ : file_infor)
    (by unfold TsOrdered; simp) (by decide)).2.1
    ⟨⟨("w/1"), 1000000, false⟩, by decide, by decide⟩
  rcases h with ⟨l₁, x, l₂, _, _, _, _, hmem⟩
  exact hmem

/-- C3: evaluation at the failing input.  The filler is synthesized only when
the queue has been empty for the filler interval, and `copy_dummy_file` names
it from `get_list_tail`, which returns NULL on the empty queue — so even when
the last real segment sent had timestamp 5 s (watermark 5000000), the filler
file is named `1.dummy` and its rediscovered captureTimestamp is
`TIME_SCALE`, not `5000000 + TIME_SCALE` as the claim (and the source's own
comment, src/udp.c line 500) requires. -/
theorem c3_filler_timestamp_bug :
    copy_dummy_file [] = "1.dummy" ∧
    (add_by_file_name ("w") ("1.dummy")).map (fun f => (f.timestamp, f.dummy_flag)) =
      some (TIME_SCALE, true) ∧
    TIME_SCALE ≠ 5 * TIME_SCALE + TIME_SCALE := by
  decide

/-- C4 counterexample: with `stream_start = -1`, `start_wait_interval =
2000000`, segment timestamp `5000000` and current time `6000000`, the source
sleeps the full 2000000 µs, while the claimed formula
`max(0, captureTimestamp + startWaitInterval − now)` gives 1000000 µs. -/
theorem c4_cex :
    (wait_time (-1) 2000000 5000000 6000000).2 = 2000000 ∧
    max (0 : Int) (5000000 + 2000000 - 6000000) = 1000000 ∧
    (2000000 : Int) ≠ 1000000 := by
  decide

/-- C4 amended: across a run of `send_file` calls starting from the initial
state (`stream_start_timestamp = -1`), only the very first segment incurs a
pre-send sleep, and its duration is `start_wait_interval` itself whenever
`captureTimestamp + start_wait_interval > now` (and 0 otherwise) — not
`max(0, captureTimestamp + startWaitInterval − now)`; every subsequent
segment is sent with no sleep.  (`file_timestamp ≠ -1` holds for every
catalogued segment, whose timestamp is a multiple of `TIME_SCALE`.) -/
theorem c4_first_sleep_only (swi now : Int) (f : file_infor)
    (rest : List (file_infor × Int)) (h : f.timestamp ≠ -1) :
    send_run_sleeps (-1) swi ((f, now) :: rest) =
      (if f.timestamp + swi > now then swi else 0) :: rest.map (fun _ => (0 : Int)) := by
  have hzero : ∀ (l : List (file_infor × Int)) (ss : Int), ss ≠ -1 →
      send_run_sleeps ss swi l = l.map (fun _ => (0 : Int)) := by
    intro l
    induction l with
    | nil => intro ss _; rfl
    | cons x xs ih =>
      intro ss hss
      rcases x with ⟨g, t⟩
      simp only [send_run_sleeps, wait_time, if_neg hss]
      rw [ih ss hss]
      rfl
  simp only [send_run_sleeps, wait_time, eq_self_iff_true, ite_true]
  rw [hzero rest f.timestamp h]

/-- C4 witness: the amended theorem at a concrete two-segment run. -/
theorem c4_witness :
    send_run_sleeps (-1) 2000000
      [(⟨("w/5"), 5000000, false⟩, 6000000), (⟨("w/6"), 6000000, false⟩, 6100000)] =
      [2000000, 0] := by
  have h := c4_first_sleep_only 2000000 6000000 (⟨("w/5"), 5000000, false⟩ : file_infor)
    [(⟨("w/6"), 6000000, false⟩, 6100000)] (by decide)
  rw [h]
  decide

/-- C5: inserting a segment whose captureTimestamp is already present in the
(ordered) queue is a silent no-op, and consequently every queue built by a
sequence of inserts holds at most one segment per captureTimestamp. -/
theorem c5_dup_insert_noop :
    (∀ (q : List file_infor) (p : file_infor), TsOrdered q →
      (∃ x ∈ q, x.timestamp = p.timestamp) → add_file_after p q = q) ∧
    (∀ segs : List file_infor,
      List.Pairwise (fun a b => a.timestamp ≠ b.timestamp) (buildQueue segs)) := by
  constructor
  · intro q p hs hex
    unfold add_file_after
    rw [add_scan_dup p q hs hex]
  · intro segs
    exact (buildQueue_sorted segs).imp (fun hab => ne_of_lt hab)

/-- C5 witness: the theorem applied to the queue `[1 s]` and a second segment
with the same timestamp, showing the queue is unchanged. -/
theorem c5_witness :
    add_file_after (⟨("w/1b"), 1000000, false⟩ : file_infor)
        [⟨("w/1"), 1000000, false⟩] = [⟨("w/1"), 1000000, false⟩] := by
  exact c5_dup_insert_noop.1 [⟨("w/1"), 1000000, false⟩]
    (⟨("w/1b"), 1000000, false⟩ : file_infor)
    (by unfold TsOrdered; simp)
    ⟨⟨("w/1"), 1000000, false⟩, by decide, by decide⟩

set_option maxRecDepth 16384 in
/-- C6: for the directory entries {100, 100.tmp, abc, 0, 200.dummy, ., ..}
(the last two being directory pseudo-entries), the discovery path accepts
exactly the segments with (timestamp, filler) = (100 time units, real) and
(200 time units, filler); and in general a name is accepted only if its
leading character run is numeric with non-zero value. -/
theorem c6_filename_filtering :
    (∀ work_dir : String,
      (scan_dir_accepted work_dir
        [⟨("100"), false⟩, ⟨("100.tmp"), false⟩, ⟨("abc"), false⟩, ⟨("0"), false⟩,
         ⟨("200.dummy"), false⟩, ⟨("."), true⟩, ⟨(".."), true⟩]).map
          (fun f => (f.timestamp, f.dummy_flag)) =
        [(100 * TIME_SCALE, false), (200 * TIME_SCALE, true)]) ∧
    (∀ (work_dir fn : String) (fi : file_infor),
      add_by_file_name work_dir fn = some fi → prefixVal fn.data ≠ 0) := by
  constructor
  · intro work_dir
    rfl
  · intro work_dir fn fi hacc
    unfold add_by_file_name at hacc
    by_cases h0 : strtoi fn.data = 0
    · rw [if_pos h0] at hacc
      cases hacc
    · exact prefixVal_ne_zero_of_strtoi_ne_zero fn.data h0

set_option maxRecDepth 16384 in
/-- C6 witness: the scenario at a concrete work directory, and the general
acceptance condition discharged at the accepted name `100`. -/
theorem c6_witness :
    (scan_dir_accepted ("w")
      [⟨("100"), false⟩, ⟨("100.tmp"), false⟩, ⟨("abc"), false⟩, ⟨("0"), false⟩,
       ⟨("200.dummy"), false⟩, ⟨("."), true⟩, ⟨(".."), true⟩]).map
        (fun f => (f.timestamp, f.dummy_flag)) =
      [(100 * TIME_SCALE, false), (200 * TIME_SCALE, true)] ∧
    prefixVal ("100" : String).data ≠ 0 := by
  refine ⟨c6_filename_filtering.1 ("w"), ?_⟩
  exact c6_filename_filtering.2 ("w") ("100")
    ⟨("w/100"), 100 * TIME_SCALE, false⟩ (by decide)

/-- C7 counterexample: after sending the real segment `10 s` the watermark is
10000000; a late real segment `5 s` then inserted into the emptied queue is
sent next and the watermark drops to 5000000 — `sent_timestamp` is not
monotonically non-decreasing over this run of the sender loop. -/
theorem c7_cex :
    (run ⟨[], 0, []⟩
      [UEvent.insert ⟨("w/10"), 10000000, false⟩, UEvent.send]).sent_timestamp = 10000000 ∧
    (run ⟨[], 0, []⟩
      [UEvent.insert ⟨("w/10"), 10000000, false⟩, UEvent.send,
       UEvent.insert ⟨("w/5"), 5000000, false⟩, UEvent.send]).sent_timestamp = 5000000 ∧
    (5000000 : Int) < 10000000 := by
  decide

/-- C7 amended: the watermark is left unchanged by inserts, advanced to the
transmitted segment's captureTimestamp exactly when a non-filler head is
sent (a filler send leaves it unchanged), and it is monotonically
non-decreasing over every run in which each inserted segment's timestamp is
at least the watermark at its insertion time — a late segment inserted into
an emptied queue below the watermark lowers it. -/
theorem c7_watermark (st : MState) :
    ((step st UEvent.send).sent_timestamp = st.sent_timestamp ∨
      (∃ f rest, st.queue = f :: rest ∧ f.dummy_flag = false ∧
        (step st UEvent.send).sent_timestamp = f.timestamp)) ∧
    (∀ f, (step st (UEvent.insert f)).sent_timestamp = st.sent_timestamp) ∧
    (∀ f rest, st.queue = f :: rest → f.dummy_flag = true →
      (step st UEvent.send).sent_timestamp = st.sent_timestamp) ∧
    (∀ es, SchedInv st → okTrace st es = true →
      st.sent_timestamp ≤ (run st es).sent_timestamp) := by
  refine ⟨?_, ?_, ?_, ?_⟩
  · unfold step
    cases hq : st.queue with
    | nil => exact Or.inl rfl
    | cons f rest =>
      by_cases hd : f.dummy_flag
      · exact Or.inl (by simp only [hd, if_true])
      · refine Or.inr ⟨f, rest, rfl, Bool.eq_false_iff.mpr hd, ?_⟩
        simp [hd]
  · intro f
    rfl
  · intro f rest hq hd
    unfold step
    rw [hq]
    simp only [hd, if_true]
  · intro es hinv hok
    exact run_mono es st hinv hok

/-- C7 witness: the amended theorem at a concrete state and trace in which
the inserted segment's timestamp is above the watermark. -/
theorem c7_witness :
    (0 : Int) ≤ (run ⟨[], 0, []⟩
      [UEvent.insert ⟨("w/1"), 1000000, false⟩, UEvent.send]).sent_timestamp := by
  refine (c7_watermark ⟨[], 0, []⟩).2.2.2
    [UEvent.insert ⟨("w/1"), 1000000, false⟩, UEvent.send] ⟨?_, ?_⟩ (by decide)
  · exact List.Pairwise.nil
  · intro x hx
    cases hx

/-- C8: evaluation at the failing input.  With the command line supplying all
four keys (ip 1.2.3.4, port 7, start_wait_interval 10, work_dir cw) and the
config file also supplying all four, the effective ip, port and work_dir keep
their command-line values, but start_wait_interval takes the config-file
value 99 instead of the command-line 10 * TIME_SCALE: the guard at src/udp.c
line 703 is `g_ctx.start_wait_interval != 0`, so the config file overrides
exactly when the command line DID supply the flag, contradicting the
source's own comment (line 684: the config value is read only when the
command line did not specify one). -/
theorem c8_start_wait_interval_bug :
    (startup ⟨some ("1.2.3.4"), some ("7"), some ("10"), some ("cw")⟩
      [(("ip"), ("9.9.9.9")), (("port"), ("99")), (("work_dir"), ("cfgdir")),
       (("start_wait_interval"), ("99"))]).ip_addr = some ("1.2.3.4") ∧
    (startup ⟨some ("1.2.3.4"), some ("7"), some ("10"), some ("cw")⟩
      [(("ip"), ("9.9.9.9")), (("port"), ("99")), (("work_dir"), ("cfgdir")),
       (("start_wait_interval"), ("99"))]).port = 7 ∧
    (startup ⟨some ("1.2.3.4"), some ("7"), some ("10"), some ("cw")⟩
      [(("ip"), ("9.9.9.9")), (("port"), ("99")), (("work_dir"), ("cfgdir")),
       (("start_wait_interval"), ("99"))]).work_dir = some ("cw") ∧
    (startup ⟨some ("1.2.3.4"), some ("7"), some ("10"), some ("cw")⟩
      [(("ip"), ("9.9.9.9")), (("port"), ("99")), (("work_dir"), ("cfgdir")),
       (("start_wait_interval"), ("99"))]).start_wait_interval = 99 ∧
    (99 : Int) ≠ 10 * TIME_SCALE := by
  decide

/-- C9: transmitting the queue head deletes its backing file exactly when it
is a filler: after a filler send the path is gone from disk (and every other
file is untouched); after a real send the disk is completely unchanged, so
the real segment's backing file still exists with the same contents. -/
theorem c9_transmission_disk (st : MState) (f : file_infor) (rest : List file_infor)
    (hq : st.queue = f :: rest) :
    (f.dummy_flag = true →
      (∀ c, (f.file_path, c) ∉ (step st UEvent.send).disk) ∧
      (∀ e ∈ st.disk, e.1 ≠ f.file_path → e ∈ (step st UEvent.send).disk)) ∧
    (f.dummy_flag = false → (step st UEvent.send).disk = st.disk) := by
  constructor
  · intro hd
    constructor
    · intro c hmem
      unfold step at hmem
      rw [hq] at hmem
      simp only [hd, if_true] at hmem
      have := (List.mem_filter.mp hmem).2
      simp at this
    · intro e he hne
      unfold step
      rw [hq]
      simp only [hd, if_true]
      exact List.mem_filter.mpr ⟨he, by simpa using hne⟩
  · intro hd
    unfold step
    rw [hq]
    simp [hd]

/-- C9 witness: a queue headed by the filler `1.dummy`, with that file and a
real file on disk; after the send the filler file is gone and the real file
remains. -/
theorem c9_witness :
    (∀ c, ((("w/1.dummy"), c) : String × String) ∉
      (step ⟨[⟨("w/1.dummy"), 1000000, true⟩], 0,
        [(("w/1.dummy"), ("a")), (("w/2"), ("b"))]⟩ UEvent.send).disk) ∧
    ((("w/2"), ("b")) : String × String) ∈
      (step ⟨[⟨("w/1.dummy"), 1000000, true⟩], 0,
        [(("w/1.dummy"), ("a")), (("w/2"), ("b"))]⟩ UEvent.send).disk := by
  have h := (c9_transmission_disk
    ⟨[⟨("w/1.dummy"), 1000000, true⟩], 0, [(("w/1.dummy"), ("a")), (("w/2"), ("b"))]⟩
    ⟨("w/1.dummy"), 1000000, true⟩ [] rfl).1 rfl
  exact ⟨h.1, h.2 ((("w/2"), ("b")) : String × String) (by decide) (by decide)⟩

/-- C10: `strtoi` accumulates the leading decimal-digit run in a 64-bit
accumulator but returns it narrowed to a signed 32-bit value, so every
catalogued captureTimestamp is computed from the prefix reduced modulo 2^32
and reinterpreted as signed, times TIME_SCALE — and a filename whose non-zero
prefix is a multiple of 2^32 parses to 0 and is rejected as if
zero-valued. -/
theorem c10_strtoi_narrowing :
    (∀ s : List Char, strtoi s = toSigned32 (prefixVal s % 2 ^ 32)) ∧
    (∀ (work_dir fn : String) (fi : file_infor),
      add_by_file_name work_dir fn = some fi →
        fi.timestamp = toSigned32 (prefixVal fn.data % 2 ^ 32) * TIME_SCALE) ∧
    (∀ (work_dir fn : String), prefixVal fn.data ≠ 0 →
      (2 ^ 32 : Int) ∣ prefixVal fn.data →
        strtoi fn.data = 0 ∧ add_by_file_name work_dir fn = none) := by
  refine ⟨strtoi_eq_toSigned32, ?_, ?_⟩
  · intro work_dir fn fi hacc
    unfold add_by_file_name at hacc
    by_cases h0 : strtoi fn.data = 0
    · rw [if_pos h0] at hacc
      cases hacc
    · rw [if_neg h0] at hacc
      by_cases h1 : strrchr_dot fn.data = some (".tmp").data
      · rw [if_pos h1] at hacc
        cases hacc
      · rw [if_neg h1] at hacc
        injection hacc with hfi
        rw [← hfi]
        rw [strtoi_eq_toSigned32]
  · intro work_dir fn _ hdvd
    have hz : prefixVal fn.data % 2 ^ 32 = 0 := Int.emod_eq_zero_of_dvd hdvd
    have h0 : strtoi fn.data = 0 := strtoi_eq_zero_of_prefixVal_zero fn.data hz
    refine ⟨h0, ?_⟩
    unfold add_by_file_name
    rw [if_pos h0]

set_option maxRecDepth 16384 in
/-- C10 witness: the filename `4294967296` (prefix 2^32, non-zero and a
multiple of 2^32) parses to 0 and is rejected; and the general narrowing
equation evaluated at that name. -/
theorem c10_witness :
    strtoi ("4294967296" : String).data = 0 ∧
    add_by_file_name ("w") ("4294967296") = none ∧
    prefixVal ("4294967296" : String).data = 4294967296 := by
  have h := c10_strtoi_narrowing.2.2 ("w") ("4294967296")
    (by decide) ⟨1, by decide⟩
  exact ⟨h.1, h.2, by decide⟩
